import Mathlib

/-!
Verification of the `Structured` container from
`src/formulaic/parser/types/structured.py` (the formulaic repository).

We shallowly embed the Python class `Structured` and its operations.
Payload values (`Any` in Python) are modelled by the inductive type `PyObj`:
opaque scalar leaves (`atom`, carrying a `Nat` tag), tuples (`tup`), and
`Structured` instances (`struct`, carrying the `_mapped_attrs` set, the
`_metadata` reference, and the ordered `_structure` dict as an association
list that preserves insertion order, mirroring Python 3.7+ dict semantics).
-/

namespace Formulaic

/-- Python exception classes raised by the methods of `Structured`
(`ValueError` at construction, `KeyError` for item access/write,
`AttributeError` for attribute access, `RuntimeError` for the
`_simplify` inplace/unwrap conflict, `IndexError`/`TypeError` from
delegated indexing on the root payload). -/
inductive PyErr where
  | valueError
  | keyError
  | attributeError
  | runtimeError
  | indexError
  | typeError
deriving DecidableEq, Repr

/-- A Python object as stored in a `Structured` instance: an opaque scalar
leaf, a tuple, or a nested `Structured` instance
(`_mapped_attrs`, `_metadata`, `_structure` in declaration order). -/
inductive PyObj where
  | atom : Nat → PyObj
  | tup : List PyObj → PyObj
  | struct : List String → Option Nat → List (String × PyObj) → PyObj

namespace PyObj

/-- `isinstance(x, Structured)`. -/
def isStruct : PyObj → Bool
  | .struct _ _ _ => true
  | _ => false

/-- `isinstance(x, tuple)`. -/
def isTup : PyObj → Bool
  | .tup _ => true
  | _ => false

/-- `isinstance(x, Sequence)`: of our payload kinds only tuples register as
`collections.abc.Sequence`; scalars do not, and `Structured` is not
registered with the ABC. -/
def isSeq : PyObj → Bool
  | .tup _ => true
  | _ => false

end PyObj

/-- Python dict lookup `d[k]` on an insertion-ordered dict modelled as an
association list (first binding wins; dicts hold at most one binding per
key). -/
def dictLookup (k : String) : List (String × PyObj) → Option PyObj
  | [] => none
  | kv :: rest => if kv.1 = k then some kv.2 else dictLookup k rest

/-- Python dict assignment `d[k] = v`: replaces the value in place if the
key is present, otherwise appends the new binding at the end. -/
def dictAssign (l : List (String × PyObj)) (k : String) (v : PyObj) :
    List (String × PyObj) :=
  match l with
  | [] => [(k, v)]
  | kv :: rest =>
    if kv.1 = k then (k, v) :: rest else kv :: dictAssign rest k v

/-- Removal of a key from a dict (used to model Python's binding of the
`root` entry of a `**`-unpacked dict to the named `root` parameter). -/
def dictErase (k : String) : List (String × PyObj) → List (String × PyObj)
  | [] => []
  | kv :: rest => if kv.1 = k then dictErase k rest else kv :: dictErase k rest

/-- Python dict merge `{**a, **b}`: keys of `a` in order with values
overridden by `b` where present, then the keys of `b` not in `a`,
appended in `b`'s order. -/
def dictMerge (a b : List (String × PyObj)) : List (String × PyObj) :=
  (a.map fun kv =>
    match dictLookup kv.1 b with
    | some v => (kv.1, v)
    | none => kv) ++
  b.filter fun kv => (dictLookup kv.1 a).isNone

/-- The keys of a dict, in insertion order. -/
def dictKeys (l : List (String × PyObj)) : List String := l.map Prod.fst

/-- `"root" in self._structure` (the `_has_root` property). -/
def hasRootB (l : List (String × PyObj)) : Bool :=
  (dictLookup "root" l).isSome

/-- `set(self._structure) != {"root"}` (the `_has_structure` property):
true unless the dict is non-empty and every key is `"root"`. -/
def hasStructureB (l : List (String × PyObj)) : Bool :=
  !(!l.isEmpty && l.all fun kv => kv.1 == "root")

/-- `self.root`, defined whenever `_has_root` holds (attribute access of a
present slot returns the stored value). -/
def rootD (l : List (String × PyObj)) : PyObj :=
  (dictLookup "root" l).getD (.atom 0)

/-- The slot dict produced when a `**kwargs` dict is fed back through a
`Structured` constructor call: Python keyword binding routes the `"root"`
entry to the `root` parameter, and `__init__` re-assigns it at the end of
the insertion order. -/
def rootToEnd (kwargs : List (String × PyObj)) : List (String × PyObj) :=
  dictErase "root" kwargs ++
    (match dictLookup "root" kwargs with
     | some r => [("root", r)]
     | none => [])

/-- A value found by dict lookup is smaller than the dict (termination
measure for the root-chasing recursions). -/
theorem sizeOf_dictLookup {l : List (String × PyObj)} {k : String} {v : PyObj}
    (h : dictLookup k l = some v) : sizeOf v < sizeOf l := by
  induction l with
  | nil => simp [dictLookup] at h
  | cons kv rest ih =>
    rw [dictLookup] at h
    by_cases hk : kv.1 = k
    · simp only [hk, if_pos rfl, Option.some.injEq] at h
      cases kv with
      | mk a b =>
        have ha : 0 < sizeOf a := by cases a; simp
        simp_all
        omega
    · simp only [hk, if_neg, Option.some.injEq] at h
      have := ih h
      simp
      omega

/-- The root payload of a container that has a root is smaller than the
container. -/
theorem sizeOf_rootD {m : List String} {md : Option Nat}
    {l : List (String × PyObj)} (h : hasRootB l = true) :
    sizeOf (rootD l) < sizeOf (PyObj.struct m md l) := by
  rw [hasRootB, Option.isSome_iff_exists] at h
  obtain ⟨v, hv⟩ := h
  have := sizeOf_dictLookup hv
  simp [rootD, hv]
  omega

/-- `key.startswith("_")`: whether the first character of the string is
an underscore (false for the empty string). -/
def underscored (s : String) : Bool :=
  match s.data with
  | [] => false
  | c :: _ => c == '_'

/-- A key supplied to `__getitem__`/`__setitem__`: Python `None`, a string,
or an integer (as used when indexing delegates to a tuple root payload). -/
inductive PKey where
  | pynone
  | pstr : String → PKey
  | pint : Int → PKey
deriving DecidableEq, Repr

namespace Structured

/-- `Structured._prepare_item`: the extension hook applied to every value
entering the structure; the base-class default is the identity. -/
def prepareItem (key : String) (item : PyObj) : PyObj := item

/-- `Structured.__init__`: fails with `ValueError` if any supplied keyword
key starts with an underscore; otherwise stores the keyword slots in
order, with the `root` positional payload (when supplied) assigned under
the key `"root"` afterwards (so it sits at the end of the insertion
order). `kwargs` is the `**structure` dict; Python keyword binding means
it never itself contains the key `"root"`, which is bound to the `root`
parameter instead. -/
def init (root : Option PyObj) (mapped : List String) (meta : Option Nat)
    (kwargs : List (String × PyObj)) : Except PyErr PyObj :=
  if kwargs.any fun kv => underscored kv.1 then .error .valueError
  else
    let kwargs' :=
      match root with
      | some r => dictAssign kwargs "root" (prepareItem "root" r)
      | none => kwargs
    .ok (.struct mapped meta (kwargs'.map fun kv => (kv.1, prepareItem kv.1 kv.2)))

/-- A constructor call over an unpacked slot dict, as performed by
`_map` (`Structured[ItemType](**structure)`, with the default empty
`_mapped_attrs`/`_metadata`), `_simplify` and `_update`
(`self.__class__(_mapped_attrs=..., _metadata=..., **structure)`):
`kwargs` may contain a `"root"` entry, which Python keyword binding
routes to the `root` parameter of `__init__`, with the remaining entries
passed as keyword slots in order (so `__init__` runs its underscore
validation and re-assigns the root slot at the end). -/
def rebuild (mapped : List String) (meta : Option Nat)
    (kwargs : List (String × PyObj)) : Except PyErr PyObj :=
  init (dictLookup "root" kwargs) mapped meta (dictErase "root" kwargs)

mutual

/-- The dict comprehension `{key: apply_func(obj) for key, obj in
self._structure.items()}` inside `Structured._map`; an exception raised
by a nested constructor call propagates out of the comprehension. -/
def mapSlots (func : PyObj → PyObj) (recurse : Bool) :
    List (String × PyObj) → Except PyErr (List (String × PyObj))
  | [] => .ok []
  | (k, v) :: rest =>
    (applyFunc func recurse v).bind fun v' =>
      (mapSlots func recurse rest).bind fun rest' => .ok ((k, v') :: rest')

/-- The local closure `apply_func` of `Structured._map`: when `recurse`
is true a nested `Structured` value is replaced by
`obj._map(func, recurse=True)` — the comprehension over its slots fed
through a fresh `Structured(**...)` constructor call; `func` is applied
element-wise to tuples and directly to everything else. -/
def applyFunc (func : PyObj → PyObj) (recurse : Bool) : PyObj → Except PyErr PyObj
  | .struct m md l =>
    if recurse then (mapSlots func true l).bind fun st => rebuild [] none st
    else .ok (func (.struct m md l))
  | .tup es => .ok (.tup (es.map func))
  | x => .ok (func x)

end

/-- `Structured._map`: returns `Structured[ItemType](**{key:
apply_func(obj) ...})` — a constructor call on the mapped slot dict, so
the fresh container carries the default `_mapped_attrs`/`_metadata`, a
`"root"` slot is re-assigned at the end of the insertion order, and
`__init__`'s underscore `ValueError` path is live. Only ever invoked on
`Structured` instances; non-`struct` values are returned unchanged
(unreachable). -/
def map (func : PyObj → PyObj) (recurse : Bool) : PyObj → Except PyErr PyObj
  | .struct _ _ l => (mapSlots func recurse l).bind fun st => rebuild [] none st
  | x => .ok x

/-- The lambda `lambda x: getattr(x, attr)` passed to `_map` by
`__getattr__`, modelled on the opaque scalar leaves it is applied to:
`getA` is the host attribute lookup on scalars. (On non-scalar values the
real `getattr` would consult that object's own attribute protocol; the
claims only apply the lambda to scalar leaves, so other values are
returned unchanged.) -/
def objGetAttr (getA : Nat → String → PyObj) (n : String) : PyObj → PyObj
  | .atom a => getA a n
  | x => x

/-- `Structured.__getattr__`: underscore names fail with `AttributeError`;
a present slot is returned as stored; a registered mapped attribute
returns `self._map(lambda x: getattr(x, attr))` — whatever that produces,
a raised exception included; anything else fails with
`AttributeError`. -/
def getattr (getA : Nat → String → PyObj) (s : PyObj) (n : String) :
    Except PyErr PyObj :=
  match s with
  | .struct m md l =>
    if underscored n then .error .attributeError
    else
      match dictLookup n l with
      | some v => .ok v
      | none =>
        if m.contains n then
          map (objGetAttr getA n) true (.struct m md l)
        else .error .attributeError
  | _ => .error .attributeError

/-- `Structured.__setattr__` for non-underscore names: upsert of the slot
with the prepared value. -/
def setattr (s : PyObj) (n : String) (v : PyObj) : PyObj :=
  match s with
  | .struct m md l => .struct m md (dictAssign l n (prepareItem n v))
  | x => x

/-- Python tuple indexing `t[i]` (supports negative indices; out of range
fails with `IndexError`). -/
def tupleGetItem (es : List PyObj) (i : Int) : Except PyErr PyObj :=
  if 0 ≤ i ∧ i < es.length then .ok (es.getD i.toNat (.atom 0))
  else if -(es.length : Int) ≤ i ∧ i < 0 then
    .ok (es.getD ((es.length : Int) + i).toNat (.atom 0))
  else .error .indexError

/-- `Structured.__getitem__`, together with the indexing behaviour of the
payloads it can delegate to: a bare-root container forwards the key to
the root payload's own indexing (scalars are not subscriptable:
`TypeError`; tuples index by integer); otherwise `None`/`"root"` return
the root when present; otherwise a non-underscore string key present in
the structure is returned; otherwise `KeyError`. -/
def getitem : PyObj → PKey → Except PyErr PyObj
  | .atom _, _ => .error .typeError
  | .tup es, .pint i => tupleGetItem es i
  | .tup _, _ => .error .typeError
  | .struct _ _ l, key =>
    if hasRootB l && !hasStructureB l then getitem (rootD l) key
    else if (key = .pynone ∨ key = .pstr "root") ∧ hasRootB l then .ok (rootD l)
    else
      match key with
      | .pstr s =>
        if !underscored s then
          match dictLookup s l with
          | some v => .ok v
          | none => .error .keyError
        else .error .keyError
      | _ => .error .keyError
termination_by x _ => sizeOf x
decreasing_by
  rename_i h
  simp only [Bool.and_eq_true] at h
  exact sizeOf_rootD h.1

/-- `yield from self.root` when the root is a sequence (a tuple in this
model; only invoked under `isSeq`). -/
def seqElems : PyObj → List PyObj
  | .tup es => es
  | x => [x]

/-- `Structured.__iter__` as the finite list of yielded values: a
bare-root sequence is flattened one level; otherwise a present root is
yielded whole; then the non-root slots follow in insertion order (the
trailing `for` loop, which yields nothing in the bare-root case). -/
def iter : PyObj → List PyObj
  | .struct _ _ l =>
    (if hasRootB l && !hasStructureB l && (rootD l).isSeq then seqElems (rootD l)
     else if hasRootB l then [rootD l]
     else []) ++
    ((l.filter fun kv => kv.1 ≠ "root").map Prod.snd)
  | _ => []

/-- The value of a key of the dict produced by `Structured._to_dict`:
either a payload surfaced as-is, or the dict a nested `Structured`
instance was converted into. -/
inductive DictVal where
  | obj : PyObj → DictVal
  | dict : List (String × DictVal) → DictVal

mutual

/-- The local closure `do_recursion` of `Structured._to_dict`: converts a
nested `Structured` value to its dict (with `_to_dict`'s defaults) when
`recurse` is true, and surfaces every other value as-is. -/
def doRecursion (recurse : Bool) : PyObj → DictVal
  | .struct m md l =>
    if recurse then .dict (toDictSlots true l) else .obj (.struct m md l)
  | x => .obj x

/-- The dict comprehension of `Structured._to_dict` over the structure. -/
def toDictSlots (recurse : Bool) :
    List (String × PyObj) → List (String × DictVal)
  | [] => []
  | (k, v) :: rest => (k, doRecursion recurse v) :: toDictSlots recurse rest

end

/-- `Structured._to_dict`: the ordered dictionary representation of the
structure. Only invoked on `Structured` instances. -/
def toDict (recurse : Bool) : PyObj → List (String × DictVal)
  | .struct _ _ l => toDictSlots recurse l
  | _ => []

end Structured

mutual

/-- Python `==` on the payload values of this model: scalars by value,
tuples element-wise (with matching length), and `Structured` instances by
`Structured.__eq__`, which compares only the `_structure` dicts (dict
equality is order-insensitive; `_mapped_attrs`/`_metadata` are ignored);
values of different kinds are never equal. -/
def pyEq : PyObj → PyObj → Bool
  | .atom a, .atom b => a == b
  | .tup es, .tup fs => pyEqList es fs
  | .struct _ _ l1, .struct _ _ l2 => pyEqDict l1 l2
  | _, _ => false

/-- Python `==` on tuples: equal length and element-wise equality. -/
def pyEqList : List PyObj → List PyObj → Bool
  | [], [] => true
  | a :: as', b :: bs' => pyEq a b && pyEqList as' bs'
  | _, _ => false

/-- Python `==` on dicts: equal size, and every key of the first maps to
an equal value in the second (order-insensitive). -/
def pyEqDict (l1 l2 : List (String × PyObj)) : Bool :=
  (l1.length == l2.length) && pyEqDictAll l1 l2

/-- Every binding of `l1` is matched by an equal value in `l2`. -/
def pyEqDictAll : List (String × PyObj) → List (String × PyObj) → Bool
  | [], _ => true
  | (k, v) :: rest, l2 =>
    (match dictLookup k l2 with
     | some w => pyEq v w
     | none => false) && pyEqDictAll rest l2

end

namespace Structured

/-- The while loop of `Structured._simplify`: while the current value is a
`Structured` instance that has a root, has no other structure, and either
`unwrap` is true or the root payload is itself a `Structured` instance,
replace the current value with the root payload. -/
def simplifyLoop (unwrap : Bool) : PyObj → PyObj
  | .struct m md l =>
    if hasRootB l && !hasStructureB l && (unwrap || (rootD l).isStruct) then
      simplifyLoop unwrap (rootD l)
    else .struct m md l
  | x => x
termination_by x => sizeOf x
decreasing_by
  rename_i h
  simp only [Bool.and_eq_true] at h
  exact sizeOf_rootD h.1.1

/-- The loop never grows the value (termination measure for the recursive
slot simplification below). -/
theorem sizeOf_simplifyLoop_le (unwrap : Bool) (s : PyObj) :
    sizeOf (simplifyLoop unwrap s) ≤ sizeOf s := by
  induction s using simplifyLoop.induct unwrap with
  | case1 m md l h ih =>
    rw [simplifyLoop, if_pos h]
    simp only [Bool.and_eq_true] at h
    exact le_of_lt (lt_of_le_of_lt ih (sizeOf_rootD h.1.1))
  | case2 m md l h => rw [simplifyLoop, if_neg h]
  | case3 x h =>
    cases x with
    | atom a => rw [simplifyLoop]; exact h
    | tup es => rw [simplifyLoop]; exact h
    | struct m md l => exact absurd rfl (h m md l)

mutual

/-- `value._simplify(recurse=True)` — the recursive call `_simplify`
makes on nested `Structured` slot values, with the method's default
arguments `unwrap=True`, `inplace=False` (so the inplace/unwrap guard
never fires). Only invoked on `Structured` values; everything else is
returned unchanged (unreachable). -/
def simplifyNested : PyObj → Except PyErr PyObj
  | .struct m md l =>
    match hw : simplifyLoop true (.struct m md l) with
    | .struct m' md' l' =>
      (simplifySlots l').bind fun st => rebuild m md st
    | w => .ok w
  | x => .ok x
termination_by x => sizeOf x
decreasing_by
  rename_i m md l
  have hle := sizeOf_simplifyLoop_le true (.struct m md l)
  rw [hw] at hle
  simp at hle ⊢
  omega

/-- The dict comprehension of `_simplify` under `recurse=True`:
`{key: value._simplify(recurse=True) if isinstance(value, Structured)
else value ...}` (an exception raised by a nested call propagates). -/
def simplifySlots : List (String × PyObj) → Except PyErr (List (String × PyObj))
  | [] => .ok []
  | (k, v) :: rest =>
    (if v.isStruct then simplifyNested v else .ok v).bind fun v' =>
      (simplifySlots rest).bind fun rest' => .ok ((k, v') :: rest')
termination_by l => sizeOf l
decreasing_by
  all_goals simp
  all_goals omega

end

/-- `Structured._simplify`, translated statement by statement; the result
is the pair (returned value or raised exception, post-call state of
`self`). The inplace/unwrap guard is checked before anything else, so on
that error — and on any error raised before the single mutation point
`self._structure = structure` — the state of `self` is unchanged. -/
def simplify (self : PyObj) (recurse unwrap inplace : Bool) :
    Except PyErr PyObj × PyObj :=
  match self with
  | .struct m md l =>
    if inplace && unwrap then (.error .runtimeError, .struct m md l)
    else
      match simplifyLoop unwrap (.struct m md l) with
      | .struct _ _ l' =>
        match (if recurse then simplifySlots l' else .ok l') with
        | .error e => (.error e, .struct m md l)
        | .ok st =>
          if inplace then (.ok (.struct m md st), .struct m md st)
          else
            match rebuild m md st with
            | .ok r => (.ok r, .struct m md l)
            | .error e => (.error e, .struct m md l)
      | w => (.ok w, .struct m md l)
  | x => (.ok x, x)

/-- The value returned (or exception raised) by a `_simplify` call. -/
def simplifyRet (self : PyObj) (recurse unwrap inplace : Bool) :
    Except PyErr PyObj :=
  (simplify self recurse unwrap inplace).1

/-- The replacement dict of `Structured._update`: its `**structure`
keywords, with `structure["root"] = root` assigned when a replacement
root payload is supplied. -/
def updateArgs (root : Option PyObj) (repl : List (String × PyObj)) :
    List (String × PyObj) :=
  match root with
  | some r => dictAssign repl "root" r
  | none => repl

/-- `Structured._update`: the replacement dict (`**structure`, with the
`root` replacement assigned under `"root"` when supplied) is prepared and
merged over `self._structure`, and the result rebuilt through
`self.__class__(...)` with `_mapped_attrs`/`_metadata` passed through.
Only invoked on `Structured` instances. -/
def update (s : PyObj) (root : Option PyObj) (repl : List (String × PyObj)) :
    Except PyErr PyObj :=
  match s with
  | .struct m md l =>
    rebuild m md
      (dictMerge l ((updateArgs root repl).map fun kv => (kv.1, prepareItem kv.1 kv.2)))
  | _ => .error .typeError

end Structured

mutual

/-- Well-formedness of a stored value: no slot key anywhere in it starts
with an underscore (guaranteed for every value that entered a real
`Structured` instance through its validated write paths). -/
def cleanKeys : PyObj → Bool
  | .atom _ => true
  | .tup _ => true
  | .struct _ _ l => cleanSlots l

/-- Well-formedness of a structure dict: keys do not start with an
underscore, and stored values are themselves well-formed. -/
def cleanSlots : List (String × PyObj) → Bool
  | [] => true
  | (k, v) :: rest => !underscored k && cleanKeys v && cleanSlots rest

end

/-- A leaf payload: neither a tuple (a group) nor a `Structured` instance
(a container). -/
def isLeafB (x : PyObj) : Bool := !x.isStruct && !x.isTup

/-- The condition of the simplification while loop, as a predicate on the
current value. -/
def loopCondB (unwrap : Bool) : PyObj → Bool
  | .struct _ _ l =>
    hasRootB l && !hasStructureB l && (unwrap || (rootD l).isStruct)
  | _ => false

/-- The root payload of the current value (the loop body's replacement). -/
def rootOf : PyObj → PyObj
  | .struct _ _ l => rootD l
  | x => x

/-- `Structured.__iter__` as the specification describes it: a bare root
wrapping an ordered sequence iterates as that sequence's elements in
order; a bare root wrapping a non-sequence iterates as the single root
payload; otherwise the root payload (when present) comes first, whole,
followed by the non-root slots' stored values in insertion order. Written
from the claim's wording, to be compared with `Structured.iter`. -/
def iterSpecDescription : PyObj → List PyObj
  | .struct _ _ l =>
    if !hasStructureB l then
      match dictLookup "root" l with
      | some (.tup es) => es
      | some v => [v]
      | none => []
    else
      (match dictLookup "root" l with
       | some v => [v]
       | none => []) ++
      ((l.filter fun kv => kv.1 ≠ "root").map Prod.snd)
  | _ => []

/-- Lookup after a value-transforming map that may consult the key. -/
theorem dictLookup_map_keyfn (g : String → PyObj → PyObj) (a : List (String × PyObj))
    (k : String) :
    dictLookup k (a.map fun kv => (kv.1, g kv.1 kv.2)) = (dictLookup k a).map (g k) := by
  induction a with
  | nil => rfl
  | cons kv rest ih =>
    by_cases hk : kv.1 = k
    · simp [dictLookup, hk]
    · simp [dictLookup, hk, ih]

/-- Lookup distributes over append, first list first. -/
theorem dictLookup_append (k : String) (xs ys : List (String × PyObj)) :
    dictLookup k (xs ++ ys) =
      match dictLookup k xs with
      | some v => some v
      | none => dictLookup k ys := by
  induction xs with
  | nil => rfl
  | cons kv rest ih =>
    by_cases hk : kv.1 = k
    · simp [dictLookup, hk]
    · simp [dictLookup, hk, ih]

/-- Filtering with a predicate that keeps every binding of key `k` does
not change the lookup of `k`. -/
theorem dictLookup_filter (k : String) (p : String × PyObj → Bool)
    (b : List (String × PyObj)) (h : ∀ kv : String × PyObj, kv.1 = k → p kv = true) :
    dictLookup k (b.filter p) = dictLookup k b := by
  induction b with
  | nil => rfl
  | cons kv rest ih =>
    by_cases hk : kv.1 = k
    · rw [List.filter_cons, h kv hk]
      simp [dictLookup, hk]
    · rw [List.filter_cons]
      by_cases hp : p kv
      · simp [hp, dictLookup, hk, ih]
      · simp [hp, dictLookup, hk, ih]

/-- Python dict-merge lookup: the right operand wins on collision. -/
theorem dictLookup_dictMerge (k : String) (a b : List (String × PyObj)) :
    dictLookup k (dictMerge a b) =
      match dictLookup k a, dictLookup k b with
      | some _, some w => some w
      | some v, none => some v
      | none, _ => dictLookup k b := by
  rw [dictMerge, dictLookup_append]
  have hmap :
      dictLookup k (a.map fun kv =>
        match dictLookup kv.1 b with
        | some v => (kv.1, v)
        | none => kv) =
      (dictLookup k a).map fun v =>
        match dictLookup k b with
        | some w => w
        | none => v := by
    have := dictLookup_map_keyfn
      (fun key v => match dictLookup key b with | some w => w | none => v) a k
    have heq : (a.map fun kv =>
        match dictLookup kv.1 b with
        | some v => (kv.1, v)
        | none => kv) =
        (a.map fun kv => (kv.1,
          match dictLookup kv.1 b with | some w => w | none => kv.2)) := by
      apply List.map_congr_left
      intro kv _
      cases hkv : dictLookup kv.1 b <;> simp
    rw [heq, this]
  rw [hmap]
  cases ha : dictLookup k a with
  | some v => cases hb : dictLookup k b <;> simp
  | none =>
    simp only [Option.map_none']
    rw [dictLookup_filter k _ b]
    intro kv hkv
    rw [hkv, ha]
    rfl

/-- Erasing one key leaves the lookup of any other key unchanged. -/
theorem dictLookup_dictErase_ne (k k' : String) (l : List (String × PyObj))
    (h : k ≠ k') :
    dictLookup k (dictErase k' l) = dictLookup k l := by
  induction l with
  | nil => rfl
  | cons kv rest ih =>
    rw [dictErase]
    by_cases hk : kv.1 = k'
    · rw [if_pos hk, ih, dictLookup, if_neg (by rw [hk]; exact fun hh => h hh.symm)]
    · rw [if_neg hk, dictLookup, dictLookup]
      by_cases hkk : kv.1 = k
      · rw [if_pos hkk, if_pos hkk]
      · rw [if_neg hkk, if_neg hkk, ih]

/-- The erased key is gone. -/
theorem dictLookup_dictErase_self (k : String) (l : List (String × PyObj)) :
    dictLookup k (dictErase k l) = none := by
  induction l with
  | nil => rfl
  | cons kv rest ih =>
    rw [dictErase]
    by_cases hk : kv.1 = k
    · rw [if_pos hk, ih]
    · rw [if_neg hk, dictLookup, if_neg hk, ih]

/-- Assignment of an absent key appends the binding. -/
theorem dictAssign_of_absent (l : List (String × PyObj)) (k : String) (v : PyObj)
    (h : dictLookup k l = none) : dictAssign l k v = l ++ [(k, v)] := by
  induction l with
  | nil => rfl
  | cons kv rest ih =>
    rw [dictLookup] at h
    by_cases hk : kv.1 = k
    · rw [if_pos hk] at h
      exact absurd h (by simp)
    · rw [if_neg hk] at h
      rw [dictAssign, if_neg hk, ih h, List.cons_append]

/-- The keys of an erased dict, in order. -/
theorem dictKeys_dictErase (k : String) (l : List (String × PyObj)) :
    dictKeys (dictErase k l) = (dictKeys l).filter (· ≠ k) := by
  induction l with
  | nil => rfl
  | cons kv rest ih =>
    rw [dictErase]
    simp only [dictKeys, ne_eq, decide_not] at ih
    by_cases hk : kv.1 = k
    · simp [hk, ih, dictKeys]
    · simp [hk, ih, dictKeys]

/-- The identity `_prepare_item` hook leaves a dict unchanged. -/
theorem map_prepareItem (l : List (String × PyObj)) :
    (l.map fun kv => (kv.1, Structured.prepareItem kv.1 kv.2)) = l := by
  simp [Structured.prepareItem]

/-- In a container without structure (key set exactly `{"root"}`), every
key is `"root"`. -/
theorem keys_all_root_of_bare (l : List (String × PyObj))
    (h : hasStructureB l = false) : ∀ kv ∈ l, kv.1 = "root" := by
  rw [hasStructureB] at h
  simp only [Bool.not_eq_false', Bool.and_eq_true, List.all_eq_true] at h
  intro kv hkv
  have := h.2 kv hkv
  simp_all

/-- A container without structure (key set exactly `{"root"}`) has no
non-root bindings. -/
theorem filter_ne_root_of_bare (l : List (String × PyObj))
    (h : hasStructureB l = false) :
    (l.filter fun kv => kv.1 ≠ "root") = [] := by
  rw [List.filter_eq_nil_iff]
  intro kv hkv
  have := keys_all_root_of_bare l h kv hkv
  simp_all

/-- A container without structure has a root. -/
theorem hasRootB_of_bare (l : List (String × PyObj))
    (h : hasStructureB l = false) : hasRootB l = true := by
  rw [hasStructureB] at h
  simp only [Bool.not_eq_false', Bool.and_eq_true, List.all_eq_true] at h
  obtain ⟨hne, hall⟩ := h
  cases l with
  | nil => simp at hne
  | cons kv rest =>
    have := hall kv (by simp)
    simp only [beq_iff_eq] at this
    simp [hasRootB, dictLookup, this]

/-- C1: the simplification walk of `_simplify` — first conjunct: each step
replaces the current value with its root payload exactly while the value
is a container that has a root, has no other structure, and either
`unwrap` is true or the root payload is itself a container; second
conjunct: the walk stops only when that condition fails; third/fourth
conjuncts: a container whose only content is `root=5` simplifies with
`unwrap=true` to the bare value `5`, and with `unwrap=false` to a
container whose root slot equals `5`. -/
theorem simplify_root_chain_c1 :
    (∀ (unwrap : Bool) (s : PyObj),
      Structured.simplifyLoop unwrap s =
        if loopCondB unwrap s then Structured.simplifyLoop unwrap (rootOf s)
        else s) ∧
    (∀ (unwrap : Bool) (s : PyObj),
      loopCondB unwrap (Structured.simplifyLoop unwrap s) = false) ∧
    Structured.simplifyRet (.struct [] none [("root", .atom 5)]) true true false =
      .ok (.atom 5) ∧
    Structured.simplifyRet (.struct [] none [("root", .atom 5)]) true false false =
      .ok (.struct [] none [("root", .atom 5)]) := by
  refine ⟨?_, ?_, ?_, ?_⟩
  · intro u s
    cases s with
    | atom a => simp [Structured.simplifyLoop, loopCondB]
    | tup es => simp [Structured.simplifyLoop, loopCondB]
    | struct m md l =>
      rw [Structured.simplifyLoop]
      by_cases h : (hasRootB l && !hasStructureB l && (u || (rootD l).isStruct)) = true
      · rw [if_pos h]
        have hc : loopCondB u (PyObj.struct m md l) = true := h
        rw [if_pos hc, rootOf]
      · rw [if_neg h]
        have hc : loopCondB u (PyObj.struct m md l) = false := by
          simpa [loopCondB] using h
        rw [hc]
        simp
  · intro u s
    induction s using Structured.simplifyLoop.induct u with
    | case1 m md l h ih =>
      rw [Structured.simplifyLoop, if_pos h]
      exact ih
    | case2 m md l h =>
      rw [Structured.simplifyLoop, if_neg h]
      simpa [loopCondB] using h
    | case3 x h =>
      cases x with
      | atom a =>
        rw [Structured.simplifyLoop]
        · rfl
        · exact h
      | tup es =>
        rw [Structured.simplifyLoop]
        · rfl
        · exact h
      | struct m md l => exact absurd rfl (h m md l)
  · simp [Structured.simplifyRet, Structured.simplify, Structured.simplifyLoop,
      hasRootB, hasStructureB, dictLookup, rootD, PyObj.isStruct]
  · simp [Structured.simplifyRet, Structured.simplify, Structured.simplifyLoop,
      hasRootB, hasStructureB, dictLookup, rootD, PyObj.isStruct,
      Structured.simplifySlots, Structured.rebuild, dictErase, Structured.init,
      dictAssign, Structured.prepareItem, underscored, Except.bind]

/-- C2: `__iter__` agrees with the spec's three-case description on every
container (bare-root sequences flatten one level; a bare non-sequence
root yields the single root payload; with structure, a present root comes
first, whole, then the non-root slots in insertion order), and on the two
worked examples: a container built only from the root sequence `(1,2,3)`
iterates as `1, 2, 3`, while a container with root `(1,2)` plus slot
`b=3` iterates as `(1,2), 3`. -/
theorem iter_cases_c2 :
    (∀ s : PyObj, Structured.iter s = iterSpecDescription s) ∧
    Structured.init (some (.tup [.atom 1, .atom 2, .atom 3])) [] none [] =
      .ok (.struct [] none [("root", .tup [.atom 1, .atom 2, .atom 3])]) ∧
    Structured.iter (.struct [] none [("root", .tup [.atom 1, .atom 2, .atom 3])]) =
      [.atom 1, .atom 2, .atom 3] ∧
    Structured.init (some (.tup [.atom 1, .atom 2])) [] none [("b", .atom 3)] =
      .ok (.struct [] none [("b", .atom 3), ("root", .tup [.atom 1, .atom 2])]) ∧
    Structured.iter (.struct [] none [("b", .atom 3), ("root", .tup [.atom 1, .atom 2])]) =
      [.tup [.atom 1, .atom 2], .atom 3] := by
  refine ⟨?_, ?_, ?_, ?_, ?_⟩
  · intro s
    cases s with
    | atom a => rfl
    | tup es => rfl
    | struct m md l =>
      rw [Structured.iter, iterSpecDescription]
      by_cases hs : hasStructureB l = true
      · rw [hs]
        simp only [Bool.not_true, Bool.and_false, Bool.false_and, if_neg]
        cases hr : dictLookup "root" l with
        | some v =>
          have hrb : hasRootB l = true := by simp [hasRootB, hr]
          simp [hrb, rootD, hr]
        | none =>
          have hrb : hasRootB l = false := by simp [hasRootB, hr]
          simp [hrb]
      · have hs' : hasStructureB l = false := by simpa using hs
        have hrb := hasRootB_of_bare l hs'
        have hnil := filter_ne_root_of_bare l hs'
        rw [hasRootB, Option.isSome_iff_exists] at hrb
        obtain ⟨v, hv⟩ := hrb
        have hrb' : hasRootB l = true := by simp [hasRootB, hv]
        cases v with
        | tup es =>
          simp [hs', hrb', rootD, hv, PyObj.isSeq, Structured.seqElems, hnil]
          exact fun a b hab => keys_all_root_of_bare l hs' (a, b) hab
        | atom a =>
          simp [hs', hrb', rootD, hv, PyObj.isSeq, hnil]
          exact fun a b hab => keys_all_root_of_bare l hs' (a, b) hab
        | struct m2 md2 l2 =>
          simp [hs', hrb', rootD, hv, PyObj.isSeq, hnil]
          exact fun a b hab => keys_all_root_of_bare l hs' (a, b) hab
  · simp [Structured.init, dictAssign, Structured.prepareItem]
  · simp [Structured.iter, hasRootB, hasStructureB, dictLookup, rootD,
      PyObj.isSeq, Structured.seqElems]
  · simp [Structured.init, dictAssign, Structured.prepareItem, underscored]
  · simp [Structured.iter, hasRootB, hasStructureB, dictLookup, rootD,
      PyObj.isSeq, Structured.seqElems]

/-- C4: `__getitem__` is the four-case cascade, in order: (1) a bare-root
container forwards the key to the root payload's own indexing and the
delegated result — error included — propagates untranslated; (2)
otherwise `None` or `"root"` return the stored root payload when a root
exists; (3) otherwise a non-reserved string key present in the structure
returns its stored value; (4) otherwise the read fails with `KeyError`.
The final two conjuncts exhibit delegation concretely: on a bare root
`(10, 20)` the integer key `1` indexes the tuple, and on a bare scalar
root even the key `"root"` is forwarded, raising the payload's own
`TypeError` rather than returning the root. -/
theorem getitem_cascade_c4 :
    (∀ (m : List String) (md : Option Nat) (l : List (String × PyObj))
       (k : PKey), (hasRootB l && !hasStructureB l) = true →
       Structured.getitem (.struct m md l) k = Structured.getitem (rootD l) k) ∧
    (∀ (m : List String) (md : Option Nat) (l : List (String × PyObj))
       (k : PKey), (hasRootB l && !hasStructureB l) = false →
       hasRootB l = true → (k = PKey.pynone ∨ k = PKey.pstr "root") →
       Structured.getitem (.struct m md l) k = .ok (rootD l)) ∧
    (∀ (m : List String) (md : Option Nat) (l : List (String × PyObj))
       (s : String) (v : PyObj), (hasRootB l && !hasStructureB l) = false →
       underscored s = false → dictLookup s l = some v →
       Structured.getitem (.struct m md l) (.pstr s) = .ok v) ∧
    (∀ (m : List String) (md : Option Nat) (l : List (String × PyObj))
       (s : String), (hasRootB l && !hasStructureB l) = false →
       (s = "root" → hasRootB l = false) →
       (underscored s = true ∨ dictLookup s l = none) →
       Structured.getitem (.struct m md l) (.pstr s) = .error .keyError) ∧
    (∀ (m : List String) (md : Option Nat) (l : List (String × PyObj))
       (k : PKey), (hasRootB l && !hasStructureB l) = false →
       hasRootB l = false → (k = PKey.pynone ∨ ∃ i, k = PKey.pint i) →
       Structured.getitem (.struct m md l) k = .error .keyError) ∧
    Structured.getitem (.struct [] none [("root", .tup [.atom 10, .atom 20])])
      (.pint 1) = .ok (.atom 20) ∧
    Structured.getitem (.struct [] none [("root", .atom 5)]) (.pstr "root") =
      .error .typeError := by
  refine ⟨?_, ?_, ?_, ?_, ?_, ?_, ?_⟩
  · intro m md l k h
    cases k with
    | pstr s => rw [Structured.getitem, if_pos h]
    | pynone =>
      rw [Structured.getitem, if_pos h]
      exact fun s hs => PKey.noConfusion hs
    | pint i =>
      rw [Structured.getitem, if_pos h]
      exact fun s hs => PKey.noConfusion hs
  · intro m md l k h hr hk
    rcases hk with hk | hk <;> subst hk
    · rw [Structured.getitem, if_neg (by simp [h]),
        if_pos (by exact ⟨Or.inl rfl, hr⟩)]
      exact fun s hs => PKey.noConfusion hs
    · rw [Structured.getitem, if_neg (by simp [h]),
        if_pos (by exact ⟨Or.inr rfl, hr⟩)]
  · intro m md l s v h hu hv
    rw [Structured.getitem, if_neg (by simp [h])]
    by_cases hroot : s = "root"
    · subst hroot
      have hr : hasRootB l = true := by simp [hasRootB, hv]
      rw [if_pos ⟨Or.inr rfl, hr⟩]
      rw [rootD, hv]
      rfl
    · rw [if_neg]
      · simp [hu, hv]
      · rintro ⟨hk | hk, -⟩
        · exact PKey.noConfusion hk
        · exact hroot (by injection hk)
  · intro m md l s h hroot hmiss
    rw [Structured.getitem, if_neg (by simp [h])]
    rw [if_neg]
    · rcases hmiss with hu | hl
      · simp [hu]
      · by_cases hu : underscored s
        · simp [hu]
        · simp [hu, hl]
    · rintro ⟨hk | hk, hr⟩
      · exact PKey.noConfusion hk
      · have : s = "root" := by injection hk
        rw [hroot this] at hr
        exact Bool.false_ne_true hr
  · intro m md l k h hr hk
    rcases hk with hk | ⟨i, hk⟩ <;> subst hk
    · rw [Structured.getitem, if_neg (by simp [h]),
        if_neg (by rintro ⟨-, hc⟩; rw [hr] at hc; exact Bool.false_ne_true hc)]
      exact fun s hs => PKey.noConfusion hs
    · rw [Structured.getitem, if_neg (by simp [h]),
        if_neg (by rintro ⟨-, hc⟩; rw [hr] at hc; exact Bool.false_ne_true hc)]
      exact fun s hs => PKey.noConfusion hs
  · simp [Structured.getitem, hasRootB, hasStructureB, dictLookup, rootD,
      Structured.tupleGetItem]
  · simp [Structured.getitem, hasRootB, hasStructureB, dictLookup, rootD]

/-- Witness for C4: all four cascade cases applied at concrete inputs —
delegation on a bare root, the `None` sentinel, a present key, and a
missing key; every hypothesis discharged by evaluation. -/
theorem getitem_cascade_c4_witness :
    Structured.getitem (.struct [] none [("root", .tup [.atom 1])]) (.pint 0) =
      Structured.getitem (.tup [.atom 1]) (.pint 0) ∧
    Structured.getitem (.struct [] none [("root", .atom 1), ("b", .atom 2)])
        .pynone = .ok (.atom 1) ∧
    Structured.getitem (.struct [] none [("root", .atom 1), ("b", .atom 2)])
        (.pstr "b") = .ok (.atom 2) ∧
    Structured.getitem (.struct [] none [("root", .atom 1), ("b", .atom 2)])
        (.pstr "zz") = .error .keyError :=
  ⟨getitem_cascade_c4.1 [] none [("root", .tup [.atom 1])] (.pint 0)
      (by decide),
    getitem_cascade_c4.2.1 [] none [("root", .atom 1), ("b", .atom 2)]
      .pynone (by decide) rfl (Or.inl rfl),
    getitem_cascade_c4.2.2.1 [] none [("root", .atom 1), ("b", .atom 2)]
      "b" (.atom 2) (by decide) (by decide) rfl,
    getitem_cascade_c4.2.2.2.1 [] none [("root", .atom 1), ("b", .atom 2)]
      "zz" (by decide) (fun h => absurd h (by decide)) (Or.inr rfl)⟩

/-- C8: `_to_dict` on a container with slots `{root: (1,2), c: (4,5)}`
yields exactly those bindings as an ordered mapping, and constructing a
new container from that mapping (its `root` entry binding the `root`
parameter, the rest passed as keyword slots) reproduces a container equal
to the original under `__eq__`, which compares the slot maps as dicts —
order-insensitively. -/
theorem to_dict_round_trip_c8 :
    Structured.toDict true
        (.struct [] none [("root", .tup [.atom 1, .atom 2]),
          ("c", .tup [.atom 4, .atom 5])]) =
      [("root", .obj (.tup [.atom 1, .atom 2])),
        ("c", .obj (.tup [.atom 4, .atom 5]))] ∧
    Structured.init (some (.tup [.atom 1, .atom 2])) [] none
        [("c", .tup [.atom 4, .atom 5])] =
      .ok (.struct [] none [("c", .tup [.atom 4, .atom 5]),
        ("root", .tup [.atom 1, .atom 2])]) ∧
    pyEq
        (.struct [] none [("root", .tup [.atom 1, .atom 2]),
          ("c", .tup [.atom 4, .atom 5])])
        (.struct [] none [("c", .tup [.atom 4, .atom 5]),
          ("root", .tup [.atom 1, .atom 2])]) = true := by
  refine ⟨rfl, ?_, ?_⟩
  · simp [Structured.init, dictAssign, Structured.prepareItem, underscored]
  · simp [pyEq, pyEqDict, pyEqDictAll, pyEqList, dictLookup]

/-- A binding of an erased dict was a binding of the original dict. -/
theorem mem_of_mem_dictErase {l : List (String × PyObj)} {k : String}
    {kv : String × PyObj} (h : kv ∈ dictErase k l) : kv ∈ l := by
  induction l with
  | nil => simpa [dictErase] using h
  | cons kv0 rest ih =>
    rw [dictErase] at h
    by_cases hk : kv0.1 = k
    · rw [if_pos hk] at h
      exact List.mem_cons_of_mem _ (ih h)
    · rw [if_neg hk] at h
      rcases List.mem_cons.mp h with heq | htail
      · exact heq ▸ List.mem_cons_self _ _
      · exact List.mem_cons_of_mem _ (ih htail)

/-- A binding after a dict assignment is an original binding or the
assigned one. -/
theorem mem_dictAssign {l : List (String × PyObj)} {k : String} {v : PyObj}
    {kv : String × PyObj} (h : kv ∈ dictAssign l k v) : kv ∈ l ∨ kv = (k, v) := by
  induction l with
  | nil => simpa [dictAssign] using h
  | cons kv0 rest ih =>
    rw [dictAssign] at h
    by_cases hk : kv0.1 = k
    · rw [if_pos hk] at h
      rcases List.mem_cons.mp h with heq | htail
      · exact Or.inr heq
      · exact Or.inl (List.mem_cons_of_mem _ htail)
    · rw [if_neg hk] at h
      rcases List.mem_cons.mp h with heq | htail
      · exact Or.inl (heq ▸ List.mem_cons_self _ _)
      · rcases ih htail with hm | he
        · exact Or.inl (List.mem_cons_of_mem _ hm)
        · exact Or.inr he

/-- Keys of concatenated dicts. -/
theorem dictKeys_append (a b : List (String × PyObj)) :
    dictKeys (a ++ b) = dictKeys a ++ dictKeys b :=
  List.map_append _ _ _

/-- The keys of a Python dict merge: the left dict's keys in order, then
the right dict's new keys in order. -/
theorem dictKeys_dictMerge (a b : List (String × PyObj)) :
    dictKeys (dictMerge a b) =
      dictKeys a ++ dictKeys (b.filter fun kv => (dictLookup kv.1 a).isNone) := by
  rw [dictMerge, dictKeys, List.map_append]
  congr 1
  rw [List.map_map]
  apply List.map_congr_left
  intro kv _
  cases hkv : dictLookup kv.1 b <;> simp [hkv]

/-- If no binding of a merge's operands has an underscored key, neither
has the merge. -/
theorem any_underscored_dictMerge_false (a b : List (String × PyObj))
    (ha : (a.any fun kv => underscored kv.1) = false)
    (hb : ∀ kv ∈ b, underscored kv.1 = false) :
    ((dictMerge a b).any fun kv => underscored kv.1) = false := by
  rw [List.any_eq_false]
  rw [List.any_eq_false] at ha
  intro kv hkv
  rcases List.mem_append.mp hkv with hma | hmb
  · rw [List.mem_map] at hma
    obtain ⟨kw, hkw, heq⟩ := hma
    have := ha kw hkw
    cases hlk : dictLookup kw.1 b <;> rw [hlk] at heq <;> rw [← heq] <;>
      simpa using this
  · exact fun hc => absurd hc (by simp [hb kv (List.mem_filter.mp hmb).1])

/-- Looking up through the rebuilt slot dict (`root` binding moved to the
end by `self.__class__(...)` keyword rebinding) is lookup in the original
dict. -/
theorem dictLookup_rebuilt (st : List (String × PyObj)) (k : String) :
    dictLookup k (dictErase "root" st ++
      (match dictLookup "root" st with
       | some r => [("root", r)]
       | none => [])) = dictLookup k st := by
  by_cases hk : k = "root"
  · subst hk
    rw [dictLookup_append, dictLookup_dictErase_self]
    cases hr : dictLookup "root" st <;> simp [dictLookup]
  · rw [dictLookup_append, dictLookup_dictErase_ne _ _ _ fun h => hk h]
    cases hst : dictLookup k st with
    | some v => rfl
    | none =>
      cases hr : dictLookup "root" st with
      | some r => rw [dictLookup, if_neg fun h => hk (Eq.symm h), dictLookup]
      | none => rfl

/-- `self.__class__(_mapped_attrs=..., _metadata=..., **kwargs)` succeeds
whenever no kwargs key is underscored, producing the kwargs dict with its
`root` binding (when present) moved to the end. -/
theorem rebuild_ok (m : List String) (md : Option Nat)
    (st : List (String × PyObj))
    (h : (st.any fun kv => underscored kv.1) = false) :
    Structured.rebuild m md st =
      .ok (.struct m md (dictErase "root" st ++
        (match dictLookup "root" st with
         | some r => [("root", r)]
         | none => []))) := by
  have herase : ((dictErase "root" st).any fun kv => underscored kv.1) = false := by
    rw [List.any_eq_false]
    rw [List.any_eq_false] at h
    exact fun kv hkv => h kv (mem_of_mem_dictErase hkv)
  rw [Structured.rebuild]
  unfold Structured.init
  rw [if_neg (by simp [herase])]
  cases hr : dictLookup "root" st with
  | some r =>
    simp only [Structured.prepareItem,
      dictAssign_of_absent _ _ _ (dictLookup_dictErase_self "root" st)]
    simp [Structured.prepareItem]
  | none => simp [Structured.prepareItem]

/-- C7: `_update` with an optional replacement root and/or named
replacement slots returns a new container sharing the original's
mapped-attrs and metadata whose slot map is the original overlaid with
the replacements: on key collision the replacement wins, unspecified
slots keep their stored values, the insertion order of the non-root keys
is the original order followed by the genuinely new keys in the order
supplied. The final conjunct is the worked example: `_update(b=99)`
preserves all prior keys and their order, with `b` becoming `99`. -/
theorem update_overlay_c7 :
    (∀ (m : List String) (md : Option Nat) (l : List (String × PyObj))
       (root : Option PyObj) (repl : List (String × PyObj)),
       (l.any fun kv => underscored kv.1) = false →
       (repl.any fun kv => underscored kv.1) = false →
       ∃ l',
         Structured.update (.struct m md l) root repl = .ok (.struct m md l') ∧
         (∀ k, dictLookup k l' =
           match dictLookup k (Structured.updateArgs root repl) with
           | some w => some w
           | none => dictLookup k l) ∧
         (dictKeys l').filter (· ≠ "root") =
           ((dictKeys l).filter (· ≠ "root")) ++
           ((dictKeys ((Structured.updateArgs root repl).filter
             fun kv => (dictLookup kv.1 l).isNone)).filter (· ≠ "root"))) ∧
    Structured.update
        (.struct [] none [("a", .atom 1), ("b", .atom 2), ("c", .atom 3)])
        none [("b", .atom 99)] =
      .ok (.struct [] none [("a", .atom 1), ("b", .atom 99), ("c", .atom 3)]) := by
  constructor
  · intro m md l root repl hl hr
    have hargs : ∀ kv ∈ Structured.updateArgs root repl,
        underscored kv.1 = false := by
      intro kv hkv
      rw [List.any_eq_false] at hr
      rw [Structured.updateArgs.eq_def] at hkv
      cases root with
      | none => exact Bool.eq_false_iff.mpr (hr kv hkv)
      | some r =>
        rcases mem_dictAssign hkv with hm | he
        · exact Bool.eq_false_iff.mpr (hr kv hm)
        · rw [he]
          show underscored "root" = false
          decide
    have hmerge : ((dictMerge l (Structured.updateArgs root repl)).any fun kv =>
        underscored kv.1) = false :=
      any_underscored_dictMerge_false l _ hl hargs
    refine ⟨dictErase "root" (dictMerge l (Structured.updateArgs root repl)) ++
      (match dictLookup "root" (dictMerge l (Structured.updateArgs root repl)) with
       | some r => [("root", r)]
       | none => []), ?_, ?_, ?_⟩
    · rw [Structured.update, map_prepareItem]
      exact rebuild_ok m md _ hmerge
    · intro k
      rw [dictLookup_rebuilt, dictLookup_dictMerge]
      cases ha : dictLookup k l <;> cases hb : dictLookup k (Structured.updateArgs root repl) <;> rfl
    · rw [dictKeys_append, List.filter_append, dictKeys_dictErase]
      have htail : (dictKeys
          (match dictLookup "root" (dictMerge l (Structured.updateArgs root repl)) with
           | some r => [("root", r)]
           | none => ([] : List (String × PyObj)))).filter (· ≠ "root") = [] := by
        cases hroot : dictLookup "root" (dictMerge l (Structured.updateArgs root repl)) <;>
          simp [dictKeys]
      rw [htail, List.append_nil, List.filter_filter]
      have hsame :
          ((dictKeys (dictMerge l (Structured.updateArgs root repl))).filter
            fun a => decide (a ≠ "root") && decide (a ≠ "root")) =
            (dictKeys (dictMerge l (Structured.updateArgs root repl))).filter
              (· ≠ "root") := by
        apply List.filter_congr
        intro a _
        cases decide (a ≠ "root") <;> rfl
      rw [hsame, dictKeys_dictMerge, List.filter_append]
  · simp [Structured.update, Structured.updateArgs, dictMerge, dictLookup,
      Structured.prepareItem, Structured.rebuild, Structured.init, dictErase,
      dictAssign, underscored]

/-- Witness for C7: the general conjunct applied to the concrete
container `{root: 1, a: 2}` updated with a replacement root `9` and slots
`{a: 7, d: 8}`, both cleanliness hypotheses discharged. -/
theorem update_overlay_c7_witness :
    ∃ l',
      Structured.update (.struct [] none [("root", .atom 1), ("a", .atom 2)])
          (some (.atom 9)) [("a", .atom 7), ("d", .atom 8)] =
        .ok (.struct [] none l') ∧
      (∀ k, dictLookup k l' =
        match dictLookup k (Structured.updateArgs (some (.atom 9))
          [("a", .atom 7), ("d", .atom 8)]) with
        | some w => some w
        | none => dictLookup k [("root", .atom 1), ("a", .atom 2)]) ∧
      (dictKeys l').filter (· ≠ "root") =
        ((dictKeys [("root", PyObj.atom 1), ("a", PyObj.atom 2)]).filter
          (· ≠ "root")) ++
        ((dictKeys ((Structured.updateArgs (some (.atom 9))
          [("a", .atom 7), ("d", .atom 8)]).filter
            fun kv => (dictLookup kv.1
              [("root", PyObj.atom 1), ("a", PyObj.atom 2)]).isNone)).filter
          (· ≠ "root")) :=
  update_overlay_c7.1 [] none [("root", .atom 1), ("a", .atom 2)]
    (some (.atom 9)) [("a", .atom 7), ("d", .atom 8)] (by decide) (by decide)

/-- Values stored in a well-formed structure dict are well-formed. -/
theorem cleanKeys_of_dictLookup {l : List (String × PyObj)} {k : String}
    {v : PyObj} (hl : cleanSlots l = true) (h : dictLookup k l = some v) :
    cleanKeys v = true := by
  induction l with
  | nil => simp [dictLookup] at h
  | cons kv rest ih =>
    cases kv with
    | mk k0 v0 =>
      rw [cleanSlots, Bool.and_eq_true, Bool.and_eq_true] at hl
      rw [dictLookup] at h
      by_cases hk : k0 = k
      · rw [if_pos hk] at h
        cases h
        exact hl.1.2
      · rw [if_neg hk] at h
        exact ih hl.2 h

/-- Well-formed dicts have no underscored top-level key. -/
theorem cleanSlots_any (l : List (String × PyObj)) (h : cleanSlots l = true) :
    (l.any fun kv => underscored kv.1) = false := by
  induction l with
  | nil => rfl
  | cons kv rest ih =>
    cases kv with
    | mk k0 v0 =>
      rw [cleanSlots, Bool.and_eq_true, Bool.and_eq_true] at h
      rw [List.any_cons, Bool.or_eq_false_iff]
      exact ⟨by simpa using h.1.1, ih h.2⟩

/-- Erasing a key preserves dict well-formedness. -/
theorem cleanSlots_dictErase (k : String) (l : List (String × PyObj))
    (h : cleanSlots l = true) : cleanSlots (dictErase k l) = true := by
  induction l with
  | nil => rfl
  | cons kv rest ih =>
    cases kv with
    | mk k0 v0 =>
      rw [cleanSlots, Bool.and_eq_true, Bool.and_eq_true] at h
      rw [dictErase]
      by_cases hk : k0 = k
      · rw [if_pos (by simpa using hk)]
        exact ih h.2
      · rw [if_neg (by simpa using hk), cleanSlots]
        simp only [Bool.and_eq_true]
        exact ⟨⟨h.1.1, h.1.2⟩, ih h.2⟩

/-- Concatenation preserves dict well-formedness. -/
theorem cleanSlots_append (a b : List (String × PyObj))
    (ha : cleanSlots a = true) (hb : cleanSlots b = true) :
    cleanSlots (a ++ b) = true := by
  induction a with
  | nil => simpa using hb
  | cons kv rest ih =>
    cases kv with
    | mk k0 v0 =>
      rw [cleanSlots, Bool.and_eq_true, Bool.and_eq_true] at ha
      rw [List.cons_append, cleanSlots]
      simp only [Bool.and_eq_true]
      exact ⟨⟨ha.1.1, ha.1.2⟩, ih ha.2⟩

/-- `rootToEnd` spelled out (definitional bridge). -/
theorem rootToEnd_def (st : List (String × PyObj)) :
    rootToEnd st = dictErase "root" st ++
      (match dictLookup "root" st with
       | some r => [("root", r)]
       | none => []) := rfl

/-- Lookup through the constructor's root re-append is lookup in the
original dict. -/
theorem dictLookup_rootToEnd (st : List (String × PyObj)) (k : String) :
    dictLookup k (rootToEnd st) = dictLookup k st :=
  dictLookup_rebuilt st k

/-- `rebuild` phrased through `rootToEnd`. -/
theorem rebuild_ok_rootToEnd (m : List String) (md : Option Nat)
    (st : List (String × PyObj))
    (h : (st.any fun kv => underscored kv.1) = false) :
    Structured.rebuild m md st = .ok (.struct m md (rootToEnd st)) :=
  rebuild_ok m md st h

/-- Erasure distributes over concatenation. -/
theorem dictErase_append (k : String) (a b : List (String × PyObj)) :
    dictErase k (a ++ b) = dictErase k a ++ dictErase k b := by
  induction a with
  | nil => rfl
  | cons kv rest ih =>
    rw [List.cons_append, dictErase, dictErase]
    by_cases hk : kv.1 = k
    · rw [if_pos hk, if_pos hk, ih]
    · rw [if_neg hk, if_neg hk, ih, List.cons_append]

/-- Erasure is idempotent. -/
theorem dictErase_dictErase (k : String) (l : List (String × PyObj)) :
    dictErase k (dictErase k l) = dictErase k l := by
  induction l with
  | nil => rfl
  | cons kv rest ih =>
    rw [dictErase]
    by_cases hk : kv.1 = k
    · rw [if_pos hk, ih]
    · rw [if_neg hk, dictErase, if_neg hk, ih]

/-- Re-appending the root is idempotent: once the root binding sits at
the end, another constructor round trip leaves the dict unchanged. -/
theorem rootToEnd_idem (st : List (String × PyObj)) :
    rootToEnd (rootToEnd st) = rootToEnd st := by
  have h1 : dictErase "root" (rootToEnd st) = dictErase "root" st := by
    rw [rootToEnd_def st, dictErase_append, dictErase_dictErase]
    cases hr : dictLookup "root" st with
    | some r => simp [dictErase]
    | none => simp [dictErase]
  have h2 : dictLookup "root" (rootToEnd st) = dictLookup "root" st :=
    dictLookup_rootToEnd st "root"
  rw [rootToEnd_def (rootToEnd st), h1, h2, ← rootToEnd_def]

/-- Whether a dict has an underscored key depends only on its keys. -/
theorem any_underscored_keys (l : List (String × PyObj)) :
    (l.any fun kv => underscored kv.1) = (dictKeys l).any underscored := by
  induction l with
  | nil => rfl
  | cons kv rest ih => rw [dictKeys, List.map_cons, List.any_cons, List.any_cons, ← dictKeys, ih]

/-- The constructor's root re-append introduces no underscored key. -/
theorem any_underscored_rootToEnd (st : List (String × PyObj))
    (h : (st.any fun kv => underscored kv.1) = false) :
    ((rootToEnd st).any fun kv => underscored kv.1) = false := by
  rw [rootToEnd_def, List.any_append, Bool.or_eq_false_iff]
  constructor
  · rw [List.any_eq_false]
    rw [List.any_eq_false] at h
    exact fun kv hkv hp => h kv (mem_of_mem_dictErase hkv) hp
  · cases hr : dictLookup "root" st with
    | some r =>
      simp only [List.any_cons, List.any_nil, Bool.or_false]
      show underscored "root" = false
      decide
    | none => rfl

/-- `apply_func` is a bare application of `func` on a leaf. -/
theorem applyFunc_leaf (f : PyObj → PyObj) (r : Bool) (x : PyObj)
    (h : isLeafB x = true) : Structured.applyFunc f r x = .ok (f x) := by
  cases x with
  | atom a => rfl
  | tup es => simp [isLeafB, PyObj.isTup] at h
  | struct m md l => simp [isLeafB, PyObj.isStruct] at h

/-- On a `Structured` value with recursion enabled, `apply_func` is
exactly the nested `_map` call (definitional bridge). -/
theorem applyFunc_struct_true (f : PyObj → PyObj) (m : List String)
    (md : Option Nat) (l : List (String × PyObj)) :
    Structured.applyFunc f true (.struct m md l) =
      Structured.map f true (.struct m md l) := rfl

/-- Inversion of a successful `_map` comprehension step. -/
theorem mapSlots_cons_ok {f : PyObj → PyObj} {r : Bool} {k0 : String}
    {v0 : PyObj} {rest y : List (String × PyObj)}
    (h : Structured.mapSlots f r ((k0, v0) :: rest) = .ok y) :
    ∃ w yr, Structured.applyFunc f r v0 = .ok w ∧
      Structured.mapSlots f r rest = .ok yr ∧ y = (k0, w) :: yr := by
  rw [Structured.mapSlots] at h
  cases ha : Structured.applyFunc f r v0 with
  | error e => rw [ha] at h; simp [Except.bind] at h
  | ok w =>
    rw [ha] at h
    cases hm : Structured.mapSlots f r rest with
    | error e => rw [hm] at h; simp [Except.bind] at h
    | ok yr =>
      rw [hm] at h
      simp [Except.bind] at h
      exact ⟨w, yr, rfl, rfl, h.symm⟩

/-- A successful `_map` comprehension distributes over concatenation. -/
theorem mapSlots_ok_append (f : PyObj → PyObj) (r : Bool) :
    ∀ {a b ya yb : List (String × PyObj)},
      Structured.mapSlots f r a = .ok ya → Structured.mapSlots f r b = .ok yb →
      Structured.mapSlots f r (a ++ b) = .ok (ya ++ yb) := by
  intro a
  induction a with
  | nil =>
    intro b ya yb ha hb
    have h0 : ya = [] := by
      have : (Except.ok [] : Except PyErr (List (String × PyObj))) = .ok ya := ha
      cases this
      rfl
    rw [h0, List.nil_append, List.nil_append]
    exact hb
  | cons kv rest ih =>
    intro b ya yb ha hb
    cases kv with
    | mk k0 v0 =>
      obtain ⟨w, yr, hw, hr', hy⟩ := mapSlots_cons_ok ha
      rw [List.cons_append, Structured.mapSlots, hw, ih hr' hb, hy]
      rfl

/-- A successful `_map` comprehension commutes with key erasure
(it transforms values pointwise, keys fixed). -/
theorem mapSlots_ok_erase (f : PyObj → PyObj) (r : Bool) (k : String) :
    ∀ {st y : List (String × PyObj)},
      Structured.mapSlots f r st = .ok y →
      Structured.mapSlots f r (dictErase k st) = .ok (dictErase k y) := by
  intro st
  induction st with
  | nil =>
    intro y h
    have h0 : y = [] := by
      have : (Except.ok [] : Except PyErr (List (String × PyObj))) = .ok y := h
      cases this
      rfl
    rw [h0]
    rfl
  | cons kv rest ih =>
    intro y h
    cases kv with
    | mk k0 v0 =>
      obtain ⟨w, yr, hw, hr', hy⟩ := mapSlots_cons_ok h
      rw [hy, dictErase, dictErase]
      by_cases hk : k0 = k
      · rw [if_pos hk, if_pos hk]
        exact ih hr'
      · rw [if_neg hk, if_neg hk, Structured.mapSlots, hw, ih hr']
        rfl

/-- A successful `_map` comprehension transforms each binding pointwise
(lookup view). -/
theorem mapSlots_ok_lookup (f : PyObj → PyObj) (r : Bool) :
    ∀ {st y : List (String × PyObj)},
      Structured.mapSlots f r st = .ok y → ∀ k : String,
      (∀ v, dictLookup k st = some v →
        ∃ w, Structured.applyFunc f r v = .ok w ∧ dictLookup k y = some w) ∧
      (dictLookup k st = none → dictLookup k y = none) := by
  intro st
  induction st with
  | nil =>
    intro y h k
    have h0 : y = [] := by
      have : (Except.ok [] : Except PyErr (List (String × PyObj))) = .ok y := h
      cases this
      rfl
    rw [h0]
    exact ⟨fun v hv => by simp [dictLookup] at hv, fun _ => rfl⟩
  | cons kv rest ih =>
    intro y h k
    cases kv with
    | mk k0 v0 =>
      obtain ⟨w, yr, hw, hr', hy⟩ := mapSlots_cons_ok h
      rw [hy]
      constructor
      · intro v hv
        rw [dictLookup] at hv
        by_cases hk : k0 = k
        · rw [if_pos hk] at hv
          cases hv
          exact ⟨w, hw, by rw [dictLookup, if_pos hk]⟩
        · rw [if_neg hk] at hv
          obtain ⟨w', hw', hl'⟩ := (ih hr' k).1 v hv
          exact ⟨w', hw', by rw [dictLookup, if_neg hk]; exact hl'⟩
      · intro hv
        rw [dictLookup] at hv
        by_cases hk : k0 = k
        · rw [if_pos hk] at hv
          exact absurd hv (by simp)
        · rw [if_neg hk] at hv
          rw [dictLookup, if_neg hk]
          exact (ih hr' k).2 hv

/-- A successful `_map` comprehension commutes with the constructor's
root re-append. -/
theorem mapSlots_ok_rootToEnd (f : PyObj → PyObj) (r : Bool)
    {st y : List (String × PyObj)}
    (h : Structured.mapSlots f r st = .ok y) :
    Structured.mapSlots f r (rootToEnd st) = .ok (rootToEnd y) := by
  have herase := mapSlots_ok_erase f r "root" h
  rw [rootToEnd_def st, rootToEnd_def y]
  cases hr : dictLookup "root" st with
  | none =>
    rw [(mapSlots_ok_lookup f r h "root").2 hr]
    exact mapSlots_ok_append f r herase rfl
  | some v =>
    obtain ⟨w, hw, hlook⟩ := (mapSlots_ok_lookup f r h "root").1 v hr
    rw [hlook]
    apply mapSlots_ok_append f r herase
    rw [Structured.mapSlots, hw]
    rfl

/-- On well-formed input `_map` cannot raise (the only raise is the
constructor's underscore check, over keys that come unchanged from the
input), and a successful comprehension keeps the key sequence and
transforms each binding by `apply_func`. Proved for values and slot
dicts simultaneously, by strong induction on size; holds for every
`func`, since `apply_func` recurses on stored values, never on `func`'s
outputs. -/
theorem map_clean_aux (f : PyObj → PyObj) : ∀ n : Nat,
    (∀ v : PyObj, sizeOf v ≤ n → cleanKeys v = true →
      ∃ w, Structured.applyFunc f true v = .ok w) ∧
    (∀ l : List (String × PyObj), sizeOf l ≤ n → cleanSlots l = true →
      ∃ st, Structured.mapSlots f true l = .ok st ∧
        dictKeys st = dictKeys l ∧
        (∀ k x, dictLookup k l = some x →
          ∃ y, dictLookup k st = some y ∧
            Structured.applyFunc f true x = .ok y)) := by
  intro n
  induction n using Nat.strong_induction_on with
  | _ n ih =>
    constructor
    · intro v hn hv
      cases v with
      | atom a => exact ⟨f (.atom a), rfl⟩
      | tup es => exact ⟨.tup (es.map f), rfl⟩
      | struct m md l =>
        rw [cleanKeys] at hv
        have hlsize : sizeOf l < n := by
          simp only [PyObj.struct.sizeOf_spec] at hn
          omega
        obtain ⟨st, hst, hkeys, hpt⟩ := (ih (sizeOf l) hlsize).2 l le_rfl hv
        have hany : (st.any fun kv => underscored kv.1) = false := by
          rw [any_underscored_keys, hkeys, ← any_underscored_keys]
          exact cleanSlots_any l hv
        refine ⟨.struct [] none (rootToEnd st), ?_⟩
        rw [applyFunc_struct_true, Structured.map, hst]
        simpa [Except.bind] using rebuild_ok_rootToEnd [] none st hany
    · intro l hn hl
      induction l with
      | nil =>
        exact ⟨[], rfl, rfl, by intro k x hx; simp [dictLookup] at hx⟩
      | cons kv rest ihrest =>
        cases kv with
        | mk k0 v0 =>
          rw [cleanSlots, Bool.and_eq_true, Bool.and_eq_true] at hl
          have hrestn : sizeOf rest ≤ n := by
            have h0 : sizeOf rest < sizeOf ((k0, v0) :: rest) := by simp
            omega
          obtain ⟨st, hst, hkeys, hpt⟩ := ihrest hrestn hl.2
          have hv0n : sizeOf v0 < n := by
            have h0 : sizeOf v0 < sizeOf ((k0, v0) :: rest) := by
              simp
              omega
            omega
          obtain ⟨w, hw⟩ := (ih (sizeOf v0) hv0n).1 v0 le_rfl hl.1.2
          refine ⟨(k0, w) :: st, ?_, ?_, ?_⟩
          · rw [Structured.mapSlots, hw, hst]
            rfl
          · rw [dictKeys, dictKeys, List.map_cons, List.map_cons]
            rw [dictKeys, dictKeys] at hkeys
            rw [hkeys]
          · intro k x hx
            rw [dictLookup] at hx
            by_cases hk : k0 = k
            · rw [if_pos hk] at hx
              cases hx
              exact ⟨w, by rw [dictLookup, if_pos hk], hw⟩
            · rw [if_neg hk] at hx
              obtain ⟨y, hy, hay⟩ := hpt k x hx
              exact ⟨y, by rw [dictLookup, if_neg hk]; exact hy, hay⟩

/-- C5: attribute read of a non-underscore name `n`: a present slot is
returned as stored; otherwise a registered mapped attribute returns
`self._map(lambda x: getattr(x, attr))` — raised exceptions included;
otherwise the read fails with `AttributeError`. The final conjunct
characterises the mapped result on any well-formed container (the class
invariant: no underscored keys anywhere): the `_map` call succeeds and
yields the constructor-built container over the transformed slot dict
`st`, whose key sequence equals the input's (the constructor re-assigns
the root slot last, without changing the slot map: the lookup conjunct),
scalar-leaf slots are replaced by the attribute lookup on the leaf, group
slots have the lookup applied element-wise, and nested-container slots
are replaced by the nested container's own `_map` result. -/
theorem getattr_mapped_c5 :
    (∀ (getA : Nat → String → PyObj) (m : List String) (md : Option Nat)
       (l : List (String × PyObj)) (n : String) (v : PyObj),
       underscored n = false → dictLookup n l = some v →
       Structured.getattr getA (.struct m md l) n = .ok v) ∧
    (∀ (getA : Nat → String → PyObj) (m : List String) (md : Option Nat)
       (l : List (String × PyObj)) (n : String),
       underscored n = false → dictLookup n l = none → m.contains n = true →
       Structured.getattr getA (.struct m md l) n =
         Structured.map (Structured.objGetAttr getA n) true (.struct m md l)) ∧
    (∀ (getA : Nat → String → PyObj) (m : List String) (md : Option Nat)
       (l : List (String × PyObj)) (n : String),
       underscored n = false → dictLookup n l = none → m.contains n = false →
       Structured.getattr getA (.struct m md l) n = .error .attributeError) ∧
    (∀ (getA : Nat → String → PyObj) (n : String) (m : List String)
       (md : Option Nat) (l : List (String × PyObj)),
       cleanSlots l = true →
       ∃ st, Structured.mapSlots (Structured.objGetAttr getA n) true l = .ok st ∧
         Structured.map (Structured.objGetAttr getA n) true (.struct m md l) =
           .ok (.struct [] none (rootToEnd st)) ∧
         dictKeys st = dictKeys l ∧
         (∀ k, dictLookup k (rootToEnd st) = dictLookup k st) ∧
         (∀ k a, dictLookup k l = some (.atom a) →
            dictLookup k st = some (getA a n)) ∧
         (∀ k es, dictLookup k l = some (.tup es) →
            dictLookup k st = some (.tup (es.map (Structured.objGetAttr getA n)))) ∧
         (∀ k m2 md2 l2, dictLookup k l = some (.struct m2 md2 l2) →
            ∃ y, dictLookup k st = some y ∧
              Structured.map (Structured.objGetAttr getA n) true
                (.struct m2 md2 l2) = .ok y)) := by
  refine ⟨?_, ?_, ?_, ?_⟩
  · intro getA m md l n v hu hv
    simp [Structured.getattr, hu, hv]
  · intro getA m md l n hu hv hm
    simp [Structured.getattr, hu, hv, hm]
    intro hnm
    exact absurd (show n ∈ m by simpa using hm) hnm
  · intro getA m md l n hu hv hm
    simp [Structured.getattr, hu, hv, hm]
    intro hnm
    exact absurd hnm (by simpa using hm)
  · intro getA n m md l hcl
    obtain ⟨st, hst, hkeys, hpt⟩ :=
      (map_clean_aux (Structured.objGetAttr getA n) (sizeOf l)).2 l le_rfl hcl
    have hany : (st.any fun kv => underscored kv.1) = false := by
      rw [any_underscored_keys, hkeys, ← any_underscored_keys]
      exact cleanSlots_any l hcl
    refine ⟨st, hst, ?_, hkeys, fun k => dictLookup_rootToEnd st k, ?_, ?_, ?_⟩
    · rw [Structured.map, hst]
      simpa [Except.bind] using rebuild_ok_rootToEnd [] none st hany
    · intro k a hx
      obtain ⟨y, hy, hay⟩ := hpt k _ hx
      have h2 : (Except.ok (getA a n) : Except PyErr PyObj) = .ok y := hay
      cases h2
      exact hy
    · intro k es hx
      obtain ⟨y, hy, hay⟩ := hpt k _ hx
      have h2 : (Except.ok (.tup (es.map (Structured.objGetAttr getA n))) :
          Except PyErr PyObj) = .ok y := hay
      cases h2
      exact hy
    · intro k m2 md2 l2 hx
      obtain ⟨y, hy, hay⟩ := hpt k _ hx
      exact ⟨y, hy, by rw [← applyFunc_struct_true]; exact hay⟩

/-- Witness for C5: the dispatch conjuncts and the mapped projection at
the concrete container `{b: 3}` with `mapped_attrs = {f}` and leaf
attribute lookup `getA a n = a + 1`; every hypothesis discharged by
evaluation. -/
theorem getattr_mapped_c5_witness :
    Structured.getattr (fun a _ => .atom (a + 1))
        (.struct ["f"] none [("b", .atom 3)]) "b" = .ok (.atom 3) ∧
    Structured.getattr (fun a _ => .atom (a + 1))
        (.struct ["f"] none [("b", .atom 3)]) "f" =
      Structured.map
        (Structured.objGetAttr (fun a _ => .atom (a + 1)) "f") true
        (.struct ["f"] none [("b", .atom 3)]) ∧
    Structured.getattr (fun a _ => .atom (a + 1))
        (.struct ["f"] none [("b", .atom 3)]) "g" = .error .attributeError ∧
    (∃ st, Structured.mapSlots
        (Structured.objGetAttr (fun a _ => .atom (a + 1)) "f") true
        [("b", .atom 3)] = .ok st ∧
      Structured.map (Structured.objGetAttr (fun a _ => .atom (a + 1)) "f")
          true (.struct [] none [("b", .atom 3)]) =
        .ok (.struct [] none (rootToEnd st)) ∧
      dictKeys st = dictKeys [("b", PyObj.atom 3)] ∧
      (∀ k, dictLookup k (rootToEnd st) = dictLookup k st) ∧
      (∀ k a, dictLookup k [("b", PyObj.atom 3)] = some (.atom a) →
         dictLookup k st =
           some ((fun (a : Nat) (_ : String) => PyObj.atom (a + 1)) a "f")) ∧
      (∀ k es, dictLookup k [("b", PyObj.atom 3)] = some (.tup es) →
         dictLookup k st = some (.tup (es.map
           (Structured.objGetAttr (fun a _ => .atom (a + 1)) "f")))) ∧
      (∀ k m2 md2 l2,
         dictLookup k [("b", PyObj.atom 3)] = some (.struct m2 md2 l2) →
         ∃ y, dictLookup k st = some y ∧
           Structured.map (Structured.objGetAttr (fun a _ => .atom (a + 1)) "f")
             true (.struct m2 md2 l2) = .ok y)) :=
  ⟨getattr_mapped_c5.1 (fun a _ => .atom (a + 1)) ["f"] none [("b", .atom 3)]
      "b" (.atom 3) (by decide) rfl,
    getattr_mapped_c5.2.1 (fun a _ => .atom (a + 1)) ["f"] none
      [("b", .atom 3)] "f" (by decide) rfl (by decide),
    getattr_mapped_c5.2.2.1 (fun a _ => .atom (a + 1)) ["f"] none
      [("b", .atom 3)] "g" (by decide) rfl (by decide),
    getattr_mapped_c5.2.2.2 (fun a _ => .atom (a + 1)) "f" [] none
      [("b", .atom 3)] (by decide)⟩

/-- Composing two `_map` passes (recursion enabled) over well-formed
values and slot dicts equals one pass of the composed function, provided
the first function returns leaves. The constructor's root re-append
commutes with the pointwise comprehension and is idempotent, so the
second pass's re-append changes nothing. Strong induction on size, for
values and slot dicts simultaneously. -/
theorem map_comp_aux (f g : PyObj → PyObj)
    (hf : ∀ x, isLeafB (f x) = true) : ∀ n : Nat,
    (∀ v : PyObj, sizeOf v ≤ n → cleanKeys v = true →
      (Structured.applyFunc f true v).bind (Structured.applyFunc g true) =
        Structured.applyFunc (fun x => g (f x)) true v) ∧
    (∀ l : List (String × PyObj), sizeOf l ≤ n → cleanSlots l = true →
      (Structured.mapSlots f true l).bind (Structured.mapSlots g true) =
        Structured.mapSlots (fun x => g (f x)) true l) := by
  intro n
  induction n using Nat.strong_induction_on with
  | _ n ih =>
    constructor
    · intro v hn hv
      cases v with
      | atom a =>
        have h1 : (Structured.applyFunc f true (.atom a)).bind
            (Structured.applyFunc g true) =
            Structured.applyFunc g true (f (.atom a)) := rfl
        rw [h1, applyFunc_leaf g true _ (hf (.atom a))]
        rfl
      | tup es =>
        have h1 : (Structured.applyFunc f true (.tup es)).bind
            (Structured.applyFunc g true) =
            .ok (.tup ((es.map f).map g)) := rfl
        rw [h1, List.map_map]
        rfl
      | struct m md l =>
        rw [cleanKeys] at hv
        have hlsize : sizeOf l < n := by
          simp only [PyObj.struct.sizeOf_spec] at hn
          omega
        obtain ⟨st, hst, hkeys, -⟩ :=
          (map_clean_aux f (sizeOf l)).2 l le_rfl hv
        obtain ⟨Y, hY, hYkeys, -⟩ :=
          (map_clean_aux (fun x => g (f x)) (sizeOf l)).2 l le_rfl hv
        have hanyl : (l.any fun kv => underscored kv.1) = false :=
          cleanSlots_any l hv
        have hanyst : (st.any fun kv => underscored kv.1) = false := by
          rw [any_underscored_keys, hkeys, ← any_underscored_keys]
          exact hanyl
        have hanyY : (Y.any fun kv => underscored kv.1) = false := by
          rw [any_underscored_keys, hYkeys, ← any_underscored_keys]
          exact hanyl
        have hB := (ih (sizeOf l) hlsize).2 l le_rfl hv
        rw [hst] at hB
        have hgst : Structured.mapSlots g true st =
            Structured.mapSlots (fun x => g (f x)) true l := hB
        rw [hY] at hgst
        have hrtY := mapSlots_ok_rootToEnd g true hgst
        have hLf : Structured.applyFunc f true (.struct m md l) =
            .ok (.struct [] none (rootToEnd st)) := by
          rw [applyFunc_struct_true, Structured.map, hst]
          simpa [Except.bind] using rebuild_ok_rootToEnd [] none st hanyst
        have hLg : Structured.applyFunc g true
            (.struct [] none (rootToEnd st)) =
            .ok (.struct [] none (rootToEnd Y)) := by
          rw [applyFunc_struct_true, Structured.map, hrtY]
          have hr2 := rebuild_ok_rootToEnd [] none (rootToEnd Y)
            (any_underscored_rootToEnd Y hanyY)
          rw [rootToEnd_idem] at hr2
          simpa [Except.bind] using hr2
        have hR : Structured.applyFunc (fun x => g (f x)) true
            (.struct m md l) = .ok (.struct [] none (rootToEnd Y)) := by
          rw [applyFunc_struct_true, Structured.map, hY]
          simpa [Except.bind] using rebuild_ok_rootToEnd [] none Y hanyY
        rw [hLf]
        show Structured.applyFunc g true (.struct [] none (rootToEnd st)) = _
        rw [hLg, hR]
    · intro l hn hl
      induction l with
      | nil => rfl
      | cons kv rest ihrest =>
        cases kv with
        | mk k0 v0 =>
          rw [cleanSlots, Bool.and_eq_true, Bool.and_eq_true] at hl
          have hrestn : sizeOf rest ≤ n := by
            have h0 : sizeOf rest < sizeOf ((k0, v0) :: rest) := by simp
            omega
          have hv0n : sizeOf v0 < n := by
            have h0 : sizeOf v0 < sizeOf ((k0, v0) :: rest) := by
              simp
              omega
            omega
          obtain ⟨w, hw⟩ := (map_clean_aux f (sizeOf v0)).1 v0 le_rfl hl.1.2
          obtain ⟨yr, hyr, -, -⟩ :=
            (map_clean_aux f (sizeOf rest)).2 rest le_rfl hl.2
          obtain ⟨u, hu⟩ :=
            (map_clean_aux (fun x => g (f x)) (sizeOf v0)).1 v0 le_rfl hl.1.2
          obtain ⟨Yr, hYr, -, -⟩ :=
            (map_clean_aux (fun x => g (f x)) (sizeOf rest)).2 rest le_rfl hl.2
          have hA := (ih (sizeOf v0) hv0n).1 v0 le_rfl hl.1.2
          rw [hw] at hA
          have hgw : Structured.applyFunc g true w =
              Structured.applyFunc (fun x => g (f x)) true v0 := hA
          rw [hu] at hgw
          have hBr := ihrest hrestn hl.2
          rw [hyr] at hBr
          have hgyr : Structured.mapSlots g true yr =
              Structured.mapSlots (fun x => g (f x)) true rest := hBr
          rw [hYr] at hgyr
          have hcons : Structured.mapSlots f true ((k0, v0) :: rest) =
              .ok ((k0, w) :: yr) := by
            rw [Structured.mapSlots, hw, hyr]
            rfl
          rw [hcons]
          show Structured.mapSlots g true ((k0, w) :: yr) = _
          rw [Structured.mapSlots, hgw, hgyr, Structured.mapSlots, hu, hYr]

/-- C6: the functor composition law of `_map` over leaves — for functions
whose outputs are leaf values (so they commute with the identity
wrapping: neither groups nor containers come out of them), mapping `f`
with recursion enabled and then mapping `g` over the resulting container
equals mapping the composition `fun x => g (f x)` once, on every
well-formed container (the class invariant: no underscored keys). Both
sides are full `_map` calls through the `Structured(**...)` constructor;
the re-appended root slot ends up in the same place on both sides. -/
theorem map_functor_comp_c6 :
    ∀ (f g : PyObj → PyObj),
      (∀ x, isLeafB (f x) = true) → (∀ x, isLeafB (g x) = true) →
      ∀ (m : List String) (md : Option Nat) (l : List (String × PyObj)),
        cleanSlots l = true →
        (Structured.map f true (.struct m md l)).bind
            (Structured.map g true) =
          Structured.map (fun x => g (f x)) true (.struct m md l) := by
  intro f g hf hg m md l hcl
  obtain ⟨st, hst, hkeys, -⟩ := (map_clean_aux f (sizeOf l)).2 l le_rfl hcl
  obtain ⟨Y, hY, hYkeys, -⟩ :=
    (map_clean_aux (fun x => g (f x)) (sizeOf l)).2 l le_rfl hcl
  have hanyl : (l.any fun kv => underscored kv.1) = false :=
    cleanSlots_any l hcl
  have hanyst : (st.any fun kv => underscored kv.1) = false := by
    rw [any_underscored_keys, hkeys, ← any_underscored_keys]
    exact hanyl
  have hanyY : (Y.any fun kv => underscored kv.1) = false := by
    rw [any_underscored_keys, hYkeys, ← any_underscored_keys]
    exact hanyl
  have hB := (map_comp_aux f g hf (sizeOf l)).2 l le_rfl hcl
  rw [hst] at hB
  have hgst : Structured.mapSlots g true st =
      Structured.mapSlots (fun x => g (f x)) true l := hB
  rw [hY] at hgst
  have hrtY := mapSlots_ok_rootToEnd g true hgst
  have hMf : Structured.map f true (.struct m md l) =
      .ok (.struct [] none (rootToEnd st)) := by
    rw [Structured.map, hst]
    simpa [Except.bind] using rebuild_ok_rootToEnd [] none st hanyst
  have hMg : Structured.map g true (.struct [] none (rootToEnd st)) =
      .ok (.struct [] none (rootToEnd Y)) := by
    rw [Structured.map, hrtY]
    have hr2 := rebuild_ok_rootToEnd [] none (rootToEnd Y)
      (any_underscored_rootToEnd Y hanyY)
    rw [rootToEnd_idem] at hr2
    simpa [Except.bind] using hr2
  have hMr : Structured.map (fun x => g (f x)) true (.struct m md l) =
      .ok (.struct [] none (rootToEnd Y)) := by
    rw [Structured.map, hY]
    simpa [Except.bind] using rebuild_ok_rootToEnd [] none Y hanyY
  rw [hMf]
  show Structured.map g true (.struct [] none (rootToEnd st)) = _
  rw [hMg, hMr]

/-- Witness for C6: the law applied to the concrete well-formed container
`{a: 3, b: (4, 5), c: {root: 6}}` with `f` sending everything to the leaf
`1` and `g` incrementing leaves; the leaf-output and cleanliness
hypotheses discharged. -/
theorem map_functor_comp_c6_witness :
    (Structured.map (fun _ => .atom 1) true
        (.struct [] none [("a", .atom 3), ("b", .tup [.atom 4, .atom 5]),
          ("c", .struct [] none [("root", .atom 6)])])).bind
      (Structured.map
        (fun x => match x with | .atom a => .atom (a + 1) | _ => .atom 0)
        true) =
    Structured.map
        (fun x =>
          match (fun _ : PyObj => PyObj.atom 1) x with
          | .atom a => PyObj.atom (a + 1)
          | _ => .atom 0) true
        (.struct [] none [("a", .atom 3), ("b", .tup [.atom 4, .atom 5]),
          ("c", .struct [] none [("root", .atom 6)])]) :=
  map_functor_comp_c6 (fun _ => .atom 1)
    (fun x => match x with | .atom a => .atom (a + 1) | _ => .atom 0)
    (fun x => rfl)
    (fun x => by cases x <;> rfl)
    [] none
    [("a", .atom 3), ("b", .tup [.atom 4, .atom 5]),
      ("c", .struct [] none [("root", .atom 6)])]
    (by decide)

/-- The simplification loop preserves well-formedness: it only ever walks
down into stored root payloads. -/
theorem cleanKeys_simplifyLoop (unwrap : Bool) (s : PyObj)
    (h : cleanKeys s = true) :
    cleanKeys (Structured.simplifyLoop unwrap s) = true := by
  induction s using Structured.simplifyLoop.induct unwrap with
  | case1 m md l hc ih =>
    rw [Structured.simplifyLoop, if_pos hc]
    apply ih
    simp only [Bool.and_eq_true] at hc
    have hr := hc.1.1
    rw [hasRootB, Option.isSome_iff_exists] at hr
    obtain ⟨v, hv⟩ := hr
    rw [cleanKeys] at h
    have := cleanKeys_of_dictLookup h hv
    rw [rootD, hv]
    exact this
  | case2 m md l hc =>
    rw [Structured.simplifyLoop, if_neg hc]
    exact h
  | case3 x hx =>
    cases x with
    | atom a =>
      rw [Structured.simplifyLoop]
      · exact h
      · exact hx
    | tup es =>
      rw [Structured.simplifyLoop]
      · exact h
      · exact hx
    | struct m md l => exact absurd rfl (hx m md l)

/-- The recursive slot pass of `_simplify` cannot raise on well-formed
input, preserves well-formedness and keys, and transforms each slot
pointwise: non-container values are kept, containers are replaced by
their own default simplification. Proved for values and slot dicts
simultaneously, by strong induction on size. -/
theorem simplify_clean_aux : ∀ n : Nat,
    (∀ v : PyObj, sizeOf v ≤ n → cleanKeys v = true →
      ∃ w, Structured.simplifyNested v = .ok w ∧ cleanKeys w = true) ∧
    (∀ l : List (String × PyObj), sizeOf l ≤ n → cleanSlots l = true →
      ∃ st, Structured.simplifySlots l = .ok st ∧ cleanSlots st = true ∧
        dictKeys st = dictKeys l ∧
        (∀ k x, dictLookup k l = some x →
          ∃ y, dictLookup k st = some y ∧
            (x.isStruct = false → y = x) ∧
            (x.isStruct = true → Structured.simplifyNested x = .ok y))) := by
  intro n
  induction n using Nat.strong_induction_on with
  | _ n ih =>
    constructor
    · intro v hn hv
      cases v with
      | atom a => exact ⟨.atom a, by simp [Structured.simplifyNested], rfl⟩
      | tup es => exact ⟨.tup es, by simp [Structured.simplifyNested], hv⟩
      | struct m md l =>
        have hloopclean := cleanKeys_simplifyLoop true (.struct m md l) hv
        have hloopsize := Structured.sizeOf_simplifyLoop_le true (.struct m md l)
        cases hw : Structured.simplifyLoop true (.struct m md l) with
        | atom a =>
          refine ⟨.atom a, ?_, rfl⟩
          rw [Structured.simplifyNested, hw]
        | tup es =>
          refine ⟨.tup es, ?_, ?_⟩
          · rw [Structured.simplifyNested, hw]
          · rw [hw] at hloopclean
            exact hloopclean
        | struct m' md' l' =>
          rw [hw] at hloopclean hloopsize
          rw [cleanKeys] at hloopclean
          have hsize : sizeOf l' < n := by
            have h2 : sizeOf (PyObj.struct m md l) ≤ n := hn
            simp only [PyObj.struct.sizeOf_spec] at hloopsize h2
            omega
          obtain ⟨st, hst, hstclean, hstkeys, hstpt⟩ :=
            (ih (sizeOf l') hsize).2 l' le_rfl hloopclean
          have hreb := rebuild_ok m md st (cleanSlots_any st hstclean)
          refine ⟨.struct m md (dictErase "root" st ++
            (match dictLookup "root" st with
             | some r => [("root", r)]
             | none => [])), ?_, ?_⟩
          · rw [Structured.simplifyNested, hw]
            simpa [hst, Except.bind] using hreb
          · rw [cleanKeys]
            apply cleanSlots_append
            · exact cleanSlots_dictErase _ _ hstclean
            · cases hroot : dictLookup "root" st with
              | some r =>
                have := cleanKeys_of_dictLookup hstclean hroot
                simp [cleanSlots, this, underscored]
              | none => rfl
    · intro l hn hl
      induction l with
      | nil =>
        exact ⟨[], by simp [Structured.simplifySlots], rfl, rfl, by
          intro k x hx
          simp [dictLookup] at hx⟩
      | cons kv rest ihrest =>
        cases kv with
        | mk k0 v0 =>
          rw [cleanSlots, Bool.and_eq_true, Bool.and_eq_true] at hl
          have hrestn : sizeOf rest ≤ n := by
            have h0 : sizeOf rest < sizeOf ((k0, v0) :: rest) := by simp
            omega
          obtain ⟨st, hst, hstclean, hstkeys, hstpt⟩ :=
            ihrest hrestn hl.2
          have hv0 : ∃ w, (if (v0.isStruct) = true then
              Structured.simplifyNested v0 else .ok v0) = .ok w ∧
              cleanKeys w = true := by
            by_cases hs : v0.isStruct = true
            · rw [if_pos hs]
              have hv0n : sizeOf v0 < n := by
                have : sizeOf v0 < sizeOf ((k0, v0) :: rest) := by simp; omega
                omega
              exact (ih (sizeOf v0) hv0n).1 v0 le_rfl hl.1.2
            · rw [if_neg hs]
              exact ⟨v0, rfl, hl.1.2⟩
          obtain ⟨w, hwv, hwc⟩ := hv0
          refine ⟨(k0, w) :: st, ?_, ?_, ?_, ?_⟩
          · rw [Structured.simplifySlots, hwv, hst]
            rfl
          · rw [cleanSlots]
            simp only [Bool.and_eq_true]
            exact ⟨⟨hl.1.1, hwc⟩, hstclean⟩
          · rw [dictKeys, dictKeys, List.map_cons, List.map_cons]
            rw [dictKeys, dictKeys] at hstkeys
            rw [hstkeys]
          · intro k x hx
            rw [dictLookup] at hx
            by_cases hk : k0 = k
            · rw [if_pos hk] at hx
              cases hx
              refine ⟨w, by rw [dictLookup, if_pos hk], ?_, ?_⟩
              · intro hxs
                rw [if_neg (by simp [hxs])] at hwv
                cases hwv
                rfl
              · intro hxs
                rw [if_pos hxs] at hwv
                exact hwv
            · rw [if_neg hk] at hx
              obtain ⟨y, hy, hy1, hy2⟩ := hstpt k x hx
              exact ⟨y, by rw [dictLookup, if_neg hk]; exact hy, hy1, hy2⟩

/-- The recursive call `value._simplify(recurse=True)` fully unwraps a
nested container whose only slot is a root holding a non-container
payload, because that call uses the default `unwrap=True`. -/
theorem simplifyNested_bare_root (m2 : List String) (md2 : Option Nat)
    (v : PyObj) (hv : v.isStruct = false) :
    Structured.simplifyNested (.struct m2 md2 [("root", v)]) = .ok v := by
  cases v with
  | atom a =>
    simp [Structured.simplifyNested, Structured.simplifyLoop, hasRootB,
      hasStructureB, dictLookup, rootD, PyObj.isStruct]
  | tup es =>
    simp [Structured.simplifyNested, Structured.simplifyLoop, hasRootB,
      hasStructureB, dictLookup, rootD, PyObj.isStruct]
  | struct m3 md3 l3 => exact absurd hv (by simp [PyObj.isStruct])

/-- C10: the recursion of `_simplify` always simplifies nested containers
with `unwrap=true`, whatever the outer `unwrap` argument: in a container
with structure (so not a lone root) whose slot `k` holds a nested
container whose only slot is `root` with a non-container payload `v`,
`_simplify(recurse=true, unwrap=false)` produces a container in which
slot `k` holds the bare payload `v`, not a container wrapping it. -/
theorem simplify_recurse_unwraps_nested_c10 :
    ∀ (m : List String) (md : Option Nat) (l : List (String × PyObj))
      (k : String) (m2 : List String) (md2 : Option Nat) (v : PyObj),
      cleanSlots l = true →
      hasStructureB l = true →
      dictLookup k l = some (.struct m2 md2 [("root", v)]) →
      v.isStruct = false →
      ∃ l', Structured.simplifyRet (.struct m md l) true false false =
          .ok (.struct m md l') ∧ dictLookup k l' = some v := by
  intro m md l k m2 md2 v hcl hs hk hv
  have hloop : Structured.simplifyLoop false (.struct m md l) = .struct m md l := by
    rw [Structured.simplifyLoop, if_neg]
    simp [hs]
  obtain ⟨st, hst, hstclean, hstkeys, hstpt⟩ :=
    (simplify_clean_aux (sizeOf l)).2 l le_rfl hcl
  obtain ⟨y, hy, hy1, hy2⟩ := hstpt k _ hk
  have hyv : y = v := by
    have hcall := hy2 (by simp [PyObj.isStruct])
    rw [simplifyNested_bare_root m2 md2 v hv] at hcall
    cases hcall
    rfl
  have hreb := rebuild_ok m md st (cleanSlots_any st hstclean)
  refine ⟨dictErase "root" st ++
    (match dictLookup "root" st with
     | some r => [("root", r)]
     | none => []), ?_, ?_⟩
  · rw [Structured.simplifyRet, Structured.simplify]
    simp only [Bool.and_false, Bool.false_and]
    rw [if_neg (by simp)]
    simp only [hloop, if_true, hst, hreb]
    simp
  · rw [dictLookup_rebuilt, hy, hyv]

/-- Witness for C10: the container `{b: {root: 7}, root: 1}` (which has
structure) simplified with `recurse=true, unwrap=false` stores the bare
`7` in slot `b`; all four hypotheses discharged by evaluation. -/
theorem simplify_recurse_unwraps_nested_c10_witness :
    ∃ l', Structured.simplifyRet
        (.struct [] none [("b", .struct [] none [("root", .atom 7)]),
          ("root", .atom 1)]) true false false =
        .ok (.struct [] none l') ∧ dictLookup "b" l' = some (.atom 7) :=
  simplify_recurse_unwraps_nested_c10 [] none
    [("b", .struct [] none [("root", .atom 7)]), ("root", .atom 1)]
    "b" [] none (.atom 7) (by decide) (by decide) rfl rfl

/-- C9: `_simplify` with both `inplace=true` and `unwrap=true` fails with
`RuntimeError` (the spec's `InvalidOperation`), for every container and
either value of `recurse`; the guard precedes the loop, the recursive
slot pass and the single mutation point, so the post-call state of `self`
(second component) is the unchanged original container. -/
theorem simplify_inplace_unwrap_conflict_c9 :
    ∀ (m : List String) (md : Option Nat) (l : List (String × PyObj))
      (recurse : Bool),
      Structured.simplify (.struct m md l) recurse true true =
        (.error .runtimeError, .struct m md l) := by
  intro m md l recurse
  simp [Structured.simplify]

end Formulaic
